import Mathlib

/-!
Verification of the mvgo operation codec core (package `codec` plus the
`mavryk.Limits` arithmetic). Go structs become Lean structures, Go `int64`
becomes `Int` with explicit two's-complement wrapping where overflow can
occur, byte buffers become `List Nat`, fallible decoders return `Except`,
and Go runtime faults (nil dereference, out-of-range indexing) are a
distinguished `crash` outcome. Wire primitives that the codec package
imports from the `mavryk` package (varint naturals, address/signature/hash
codecs, tag tables, fee constants) are modelled from the specification and
marked as such in their doc comments.
-/

namespace MvGo

/-- Byte buffers are lists of naturals; encoders only produce values < 256. -/
abbrev Bytes := List Nat

/-- Two's-complement wrap of an integer into the `int64` range, the result
of Go 64-bit signed arithmetic. -/
def wrap64 (z : Int) : Int :=
  (z + 2 ^ 63) % 2 ^ 64 - 2 ^ 63

/-- An integer is representable as a Go `int64`. -/
def Int64Wf (z : Int) : Prop :=
  -(2 ^ 63) ≤ z ∧ z < 2 ^ 63

instance (z : Int) : Decidable (Int64Wf z) := by
  unfold Int64Wf; infer_instance

/-- Modelled from the spec: `max64` helper of the codec package (missing
from src/), the larger of two `int64` values. -/
def max64 (a b : Int) : Int :=
  if a > b then a else b

/-- Modelled from the spec: the LEB128-style natural codec `mavryk.N`
(missing from src/): little-endian base-128 groups, a set high bit marking
continuation. The recursion is fuelled only to keep the encoder
kernel-reducible; `nEncode` supplies ample fuel. -/
def nEncodeAux : Nat → Nat → Bytes
  | 0, n => [n]
  | fuel + 1, n =>
    if n < 128 then [n] else (n % 128 + 128) :: nEncodeAux fuel (n / 128)

/-- Encoder for `mavryk.N` values: the wire naturals (fee, counter, gas
limit, storage limit, amount). -/
def nEncode (n : Nat) : Bytes := nEncodeAux n n

/-- Modelled from the spec: decoder for `mavryk.N`; consumes the encoded
group bytes and returns the value together with the unread rest. -/
def nDecode : Bytes → Option (Nat × Bytes)
  | [] => none
  | b :: rest =>
    if b < 128 then some (b, rest)
    else
      match nDecode rest with
      | some (n, r) => some (n * 128 + (b - 128), r)
      | none => none

theorem nDecode_nEncodeAux (fuel : Nat) : ∀ n rest, n < 128 ^ (fuel + 1) →
    nDecode (nEncodeAux fuel n ++ rest) = some (n, rest) := by
  induction fuel with
  | zero =>
    intro n rest h
    have h128 : n < 128 := by simpa using h
    simp [nEncodeAux, nDecode, h128]
  | succ f ih =>
    intro n rest h
    by_cases h128 : n < 128
    · simp [nEncodeAux, h128, nDecode]
    · have hd : n / 128 < 128 ^ (f + 1) := by
        rw [Nat.div_lt_iff_lt_mul (by norm_num)]
        calc n < 128 ^ (f + 1 + 1) := h
          _ = 128 ^ (f + 1) * 128 := by ring
      simp only [nEncodeAux, h128, if_false, List.cons_append, nDecode]
      have hge : ¬ (n % 128 + 128 < 128) := by omega
      simp only [hge, if_false, ih (n / 128) rest hd]
      have heq : n / 128 * 128 + (n % 128 + 128 - 128) = n := by omega
      simp only [heq]

theorem nDecode_nEncode (n : Nat) (rest : Bytes) :
    nDecode (nEncode n ++ rest) = some (n, rest) := by
  have h : n < 128 ^ (n + 1) :=
    lt_of_lt_of_le (Nat.lt_pow_self (by norm_num) n)
      (Nat.pow_le_pow_right (by norm_num) (Nat.le_succ n))
  exact nDecode_nEncodeAux n n rest h

/-- Modelled from the spec: a Tezos-family address, a type tag (0,1,2 for
the three implicit key-hash kinds, 3 for an originated contract) plus a
20-byte hash. The text rendering is an external collaborator and is left
opaque. -/
structure Address where
  typ : Nat
  hash : Bytes
deriving DecidableEq, Repr

/-- The zero value of `mavryk.Address` (an unset/absent address). -/
def Address.zero : Address := ⟨0, []⟩

/-- Modelled from the spec: address validity, a known type tag and a
20-byte hash. -/
def Address.isValid (a : Address) : Bool :=
  a.typ < 4 && a.hash.length == 20

/-- Modelled from the spec: the 21-byte address form (`source(21B)`), a
key-hash tag byte followed by the 20-byte hash. Only implicit addresses
occur here. -/
def Address.encode (a : Address) : Bytes :=
  a.typ :: a.hash

/-- Modelled from the spec: the 22-byte padded address form
(`destination(22B padded)`): implicit addresses are `0x00, tag, hash`,
originated contracts are `0x01, hash, 0x00`. -/
def Address.encodePadded (a : Address) : Bytes :=
  if a.typ < 3 then 0 :: a.typ :: a.hash else 1 :: a.hash ++ [0]

/-- Structured decode errors of the codec core. -/
inductive DecErr where
  | shortBuffer
  | badTag (t : Nat)
  | badAddress
  | badBool
  | badSignature
  | unsupportedTag (t : Nat)
deriving DecidableEq, Repr

/-- Modelled from the spec: `Address.Decode` over the 21-byte key-hash
form. -/
def Address.decode21 (b : Bytes) : Except DecErr Address :=
  match b with
  | t :: rest =>
    if t < 3 && rest.length == 20 then .ok ⟨t, rest⟩ else .error .badAddress
  | [] => .error .badAddress

/-- Modelled from the spec: `Address.Decode` over the 22-byte padded
form. -/
def Address.decode22 (b : Bytes) : Except DecErr Address :=
  match b with
  | 0 :: t :: rest =>
    if t < 3 && rest.length == 20 then .ok ⟨t, rest⟩ else .error .badAddress
  | 1 :: rest =>
    if rest.length == 21 then .ok ⟨3, rest.take 20⟩ else .error .badAddress
  | _ => .error .badAddress

theorem Address.decode21_encode (a : Address) (h : a.isValid = true) (h3 : a.typ < 3) :
    Address.decode21 a.encode = .ok a := by
  cases a with
  | mk t hsh =>
    simp only [Address.isValid, Bool.and_eq_true, decide_eq_true_eq, beq_iff_eq] at h
    simp [Address.encode, Address.decode21, h.2, h3]

theorem Address.decode22_encodePadded (a : Address) (h : a.isValid = true) :
    Address.decode22 a.encodePadded = .ok a := by
  cases a with
  | mk t hsh =>
    simp only [Address.isValid, Bool.and_eq_true, decide_eq_true_eq, beq_iff_eq] at h
    by_cases h3 : t < 3
    · simp [Address.encodePadded, Address.decode22, h3, h.2]
    · have ht : t = 3 := by omega
      subst ht
      simp [Address.encodePadded, Address.decode22, h.2, List.take_of_length_le h.2.le]

/-- Modelled from the spec: `readBool` of the codec package (missing from
src/): a presence byte, `0xff` marking present and `0x00` absent; a
malformed enumerant byte is a structured error. -/
def readBool (b : Bytes) : Except DecErr Bool :=
  match b with
  | [255] => .ok true
  | [0] => .ok false
  | _ => .error .badBool

instance {ε α : Type} [DecidableEq ε] [DecidableEq α] : DecidableEq (Except ε α) := fun x y =>
  match x, y with
  | .ok a, .ok b =>
    if h : a = b then .isTrue (congrArg Except.ok h)
    else .isFalse (fun hc => h (Except.ok.inj hc))
  | .error a, .error b =>
    if h : a = b then .isTrue (congrArg Except.error h)
    else .isFalse (fun hc => h (Except.error.inj hc))
  | .ok _, .error _ => .isFalse (fun hc => Except.noConfusion hc)
  | .error _, .ok _ => .isFalse (fun hc => Except.noConfusion hc)

/-- Protocol parameters; the codec core reads only the operation-tags
version (0..3, version 2 onward being the current consensus era). -/
structure MvParams where
  OperationTagsVersion : Nat
deriving DecidableEq, Repr

/-- Modelled from the spec: `mavryk.DefaultParams` (missing from src/),
current-era mainnet parameters. -/
def defaultParams : MvParams := ⟨3⟩

/-- Operation kinds used by the claims (a slice of the ~30-kind
`mavryk.OpType` enumeration, which is missing from src/).
`Preattestation` doubles for the pre-rename `OpTypePreendorsement`, which
names the same constant. -/
inductive OpType where
  | Endorsement
  | Preattestation
  | EndorsementWithSlot
  | Transaction
  | Delegation
  | DrainDelegate
deriving DecidableEq, Repr

/-- Modelled from the spec: the version-aware tag table
(`OpType.TagVersion`, missing from src/). Legacy eras (version 0/1) use
the Emmy consensus tags; version 2 onward uses the Tenderbake tags. -/
def tagVersion (k : OpType) (ver : Nat) : Nat :=
  match k with
  | .Endorsement => if ver < 2 then 0 else 21
  | .Preattestation => 20
  | .EndorsementWithSlot => 10
  | .Transaction => if ver = 0 then 8 else 108
  | .Delegation => if ver = 0 then 10 else 110
  | .DrainDelegate => 9

/-- Modelled from the spec: `mavryk.ParseOpTag` (missing from src/), the
inverse tag lookup used by the batch dispatcher; unknown bytes yield
`none`. -/
def parseOpTag (t : Nat) : Option OpType :=
  match t with
  | 0 => some .Endorsement
  | 21 => some .Endorsement
  | 20 => some .Preattestation
  | 10 => some .EndorsementWithSlot
  | 108 => some .Transaction
  | 110 => some .Delegation
  | 9 => some .DrainDelegate
  | _ => none

/-- Modelled from the spec: `mavryk.Signature`, carried as its raw bytes;
a standard signature is 64 bytes. -/
structure Signature where
  data : Bytes
deriving DecidableEq, Repr

/-- The zero value, also `mavryk.InvalidSignature`. -/
def Signature.invalid : Signature := ⟨[]⟩

/-- Modelled from the spec: signature validity, a full 64-byte body. -/
def Signature.isValid (s : Signature) : Bool :=
  s.data.length == 64

/-- Modelled from the spec: `Signature.UnmarshalBinary` over a raw 64-byte
tail. -/
def Signature.unmarshal (b : Bytes) : Except DecErr Signature :=
  if b.length == 64 then .ok ⟨b⟩ else .error .badSignature

/-- Modelled from the spec: text rendering of a signature (external
collaborator), kept opaque as its raw bytes. -/
def Signature.render (s : Signature) : Bytes := s.data

/-- Modelled from the spec: `mavryk.BlockHash` (missing from src/), a
32-byte branch hash; the zero value is invalid. -/
structure BlockHash where
  bytes : Bytes
deriving DecidableEq, Repr

/-- Modelled from the spec: branch validity, 32 bytes and not the zero
hash. -/
def BlockHash.isValid (h : BlockHash) : Bool :=
  h.bytes.length == 32 && h.bytes.any (· != 0)

/-- Modelled from the spec: text rendering of a block hash (external
collaborator), kept opaque as its raw bytes. -/
def BlockHash.render (h : BlockHash) : Bytes := h.bytes

/-- The `mavryk.Limits` record: fee, gas limit and storage limit, each a
Go `int64`. -/
structure Limits where
  Fee : Int
  GasLimit : Int
  StorageLimit : Int
deriving DecidableEq, Repr

/-- The zero value `mavryk.Limits{}`. -/
def Limits.zero : Limits := ⟨0, 0, 0⟩

/-- `Limits.Add` from src/mavryk/cost.go: component-wise `int64`
addition. -/
def Limits.add (x y : Limits) : Limits :=
  ⟨wrap64 (x.Fee + y.Fee), wrap64 (x.GasLimit + y.GasLimit),
    wrap64 (x.StorageLimit + y.StorageLimit)⟩

/-- All three components are `int64`-representable, as Go guarantees. -/
def Limits.Wf (l : Limits) : Prop :=
  Int64Wf l.Fee ∧ Int64Wf l.GasLimit ∧ Int64Wf l.StorageLimit

instance (l : Limits) : Decidable l.Wf := by
  unfold Limits.Wf; infer_instance

/-- The `Manager` field bundle of fee-paying operations
(src/codec/manager.go); the four numeric fields are wire naturals
(`mavryk.N`). -/
structure Manager where
  Source : Address
  Fee : Nat
  Counter : Nat
  GasLimit : Nat
  StorageLimit : Nat
deriving DecidableEq, Repr

/-- `Manager.Limits` from src/codec/manager.go. -/
def Manager.limits (m : Manager) : Limits :=
  ⟨(m.Fee : Int), (m.GasLimit : Int), (m.StorageLimit : Int)⟩

/-- `Manager.WithLimits` from src/codec/manager.go; `N.SetInt64` is
modelled from the spec as clamping into the natural wire domain. -/
def Manager.withLimits (m : Manager) (l : Limits) : Manager :=
  { m with Fee := l.Fee.toNat, GasLimit := l.GasLimit.toNat,
           StorageLimit := l.StorageLimit.toNat }

/-- `Manager.WithSource` from src/codec/manager.go. -/
def Manager.withSource (m : Manager) (a : Address) : Manager :=
  { m with Source := a }

/-- `Manager.WithCounter` from src/codec/manager.go. -/
def Manager.withCounter (m : Manager) (c : Int) : Manager :=
  { m with Counter := c.toNat }

/-- `Manager.EncodeBuffer` from src/codec/manager.go: 21-byte source then
the four varint naturals. -/
def Manager.encodeBuffer (m : Manager) : Bytes :=
  m.Source.encode ++ nEncode m.Fee ++ nEncode m.Counter ++
    nEncode m.GasLimit ++ nEncode m.StorageLimit

/-- Lift of the varint decoder into the structured-error monad (a failed
read of a wire natural is a truncated buffer). -/
def nDecodeE (b : Bytes) : Except DecErr (Nat × Bytes) :=
  match nDecode b with
  | some r => .ok r
  | none => .error .shortBuffer

/-- `Manager.DecodeBuffer` from src/codec/manager.go. -/
def Manager.decodeBuffer (b : Bytes) : Except DecErr (Manager × Bytes) := do
  let src ← Address.decode21 (b.take 21)
  let b := b.drop 21
  let (fee, b) ← nDecodeE b
  let (counter, b) ← nDecodeE b
  let (gas, b) ← nDecodeE b
  let (storage, b) ← nDecodeE b
  .ok (⟨src, fee, counter, gas, storage⟩, b)

/-- A manager bundle is well-formed when its source is a valid implicit
address (the zero-value source of an unset builder is not serializable). -/
def Manager.Wf (m : Manager) : Prop :=
  m.Source.isValid = true ∧ m.Source.typ < 3

instance (m : Manager) : Decidable m.Wf := by
  unfold Manager.Wf; infer_instance

/-- Modelled from the spec: the opaque contract-call value object
(`micheline.Parameters`, an external collaborator): the codec core
requires only a self-delimiting binary encoding, modelled as a 4-byte
big-endian length prefix plus payload. -/
structure MichelineParameters where
  blob : Bytes
deriving DecidableEq, Repr

/-- Big-endian 32-bit length prefix. -/
def be32 (n : Nat) : Bytes :=
  [n / 2 ^ 24 % 256, n / 2 ^ 16 % 256, n / 2 ^ 8 % 256, n % 256]

/-- Modelled from the spec: `Parameters.EncodeBuffer` of the opaque value
collaborator. -/
def MichelineParameters.encode (p : MichelineParameters) : Bytes :=
  be32 p.blob.length ++ p.blob

/-- Modelled from the spec: `Parameters.DecodeBuffer` of the opaque value
collaborator. -/
def MichelineParameters.decode (b : Bytes) :
    Except DecErr (MichelineParameters × Bytes) :=
  match b with
  | b0 :: b1 :: b2 :: b3 :: rest =>
    let n := ((b0 * 256 + b1) * 256 + b2) * 256 + b3
    if rest.length < n then .error .shortBuffer
    else .ok (⟨rest.take n⟩, rest.drop n)
  | _ => .error .shortBuffer

/-- The payload fits the 32-bit length prefix. -/
def MichelineParameters.Wf (p : MichelineParameters) : Prop :=
  p.blob.length < 2 ^ 32

instance (p : MichelineParameters) : Decidable p.Wf := by
  unfold MichelineParameters.Wf; infer_instance

theorem michelineParameters_roundtrip (p : MichelineParameters) (h : p.Wf)
    (rest : Bytes) : MichelineParameters.decode (p.encode ++ rest) = .ok (p, rest) := by
  cases p with
  | mk blob =>
    unfold MichelineParameters.Wf at h
    simp only [MichelineParameters.encode, be32, MichelineParameters.decode,
      List.cons_append, List.nil_append, List.append_assoc]
    have hlen : ((blob.length / 2 ^ 24 % 256 * 256 + blob.length / 2 ^ 16 % 256) * 256 +
        blob.length / 2 ^ 8 % 256) * 256 + blob.length % 256 = blob.length := by
      simp only at h ⊢
      omega
    simp only [hlen]
    have h1 : ¬ (blob.length + rest.length < blob.length) := by omega
    simp [h1, List.take_append_of_le_length, List.drop_append_of_le_length]

/-- Modelled from the spec: `ensureTagAndSize` of the codec package
(missing from src/): consumes the leading tag byte and checks it is the
version-adjusted tag of the expected kind. -/
def ensureTagAndSize (k : OpType) (ver : Nat) (b : Bytes) : Except DecErr Bytes :=
  match b with
  | t :: rest => if t == tagVersion k ver then .ok rest else .error (.badTag t)
  | [] => .error .shortBuffer

/-- The `Transaction` variant (src/unnamed/part_003): embedded manager
bundle, amount, padded destination, optional call parameters. -/
structure Transaction where
  manager : Manager
  Amount : Nat
  Destination : Address
  Parameters : Option MichelineParameters
deriving DecidableEq, Repr

/-- `Transaction.EncodeBuffer` from src/unnamed/part_003. -/
def Transaction.encodeBuffer (o : Transaction) (p : MvParams) : Bytes :=
  tagVersion .Transaction p.OperationTagsVersion ::
    (o.manager.encodeBuffer ++ nEncode o.Amount ++ o.Destination.encodePadded ++
      (match o.Parameters with
       | some prm => 255 :: prm.encode
       | none => [0]))

/-- `Transaction.DecodeBuffer` from src/unnamed/part_003. -/
def Transaction.decodeBuffer (b : Bytes) (p : MvParams) :
    Except DecErr (Transaction × Bytes) := do
  let b ← ensureTagAndSize .Transaction p.OperationTagsVersion b
  let (m, b) ← Manager.decodeBuffer b
  let (amt, b) ← nDecodeE b
  let dst ← Address.decode22 (b.take 22)
  let b := b.drop 22
  let ok ← readBool (b.take 1)
  let b := b.drop 1
  if ok then
    let (prm, b) ← MichelineParameters.decode b
    .ok (⟨m, amt, dst, some prm⟩, b)
  else
    .ok (⟨m, amt, dst, none⟩, b)

/-- A transaction is well-formed when its manager bundle and destination
are valid and an attached parameter value fits its length prefix; an
absent optional field is the zero value, as in a freshly built Go
struct. -/
def Transaction.Wf (o : Transaction) : Prop :=
  o.manager.Wf ∧ o.Destination.isValid = true ∧ (o.Parameters.getD ⟨[]⟩).Wf

/-- The `Delegation` variant (src/codec/drain_delegate.go, third file
section): embedded manager bundle and optional delegate. -/
structure Delegation where
  manager : Manager
  Delegate : Address
deriving DecidableEq, Repr

/-- `Delegation.EncodeBuffer` from src/codec/drain_delegate.go: a set
delegate is flagged `0xff` and encoded in 21 bytes; an unset one is the
flag byte `0x00` alone. -/
def Delegation.encodeBuffer (o : Delegation) (p : MvParams) : Bytes :=
  tagVersion .Delegation p.OperationTagsVersion ::
    (o.manager.encodeBuffer ++
      (if o.Delegate.isValid then 255 :: o.Delegate.encode else [0]))

/-- `Delegation.DecodeBuffer` from src/codec/drain_delegate.go. -/
def Delegation.decodeBuffer (b : Bytes) (p : MvParams) :
    Except DecErr (Delegation × Bytes) := do
  let b ← ensureTagAndSize .Delegation p.OperationTagsVersion b
  let (m, b) ← Manager.decodeBuffer b
  let ok ← readBool (b.take 1)
  let b := b.drop 1
  if ok then
    let d ← Address.decode21 (b.take 21)
    .ok (⟨m, d⟩, b.drop 21)
  else
    .ok (⟨m, Address.zero⟩, b)

/-- A delegation is well-formed when its manager bundle is valid and the
delegate is either the zero value (absent) or a valid implicit address. -/
def Delegation.Wf (o : Delegation) : Prop :=
  o.manager.Wf ∧
    (o.Delegate = Address.zero ∨ (o.Delegate.isValid = true ∧ o.Delegate.typ < 3))

/-- The `DrainDelegate` variant (src/codec/drain_delegate.go, first file
section): three 21-byte addresses, no manager bundle. -/
structure DrainDelegate where
  ConsensusKey : Address
  Delegate : Address
  Destination : Address
deriving DecidableEq, Repr

/-- `DrainDelegate.EncodeBuffer` from src/codec/drain_delegate.go. -/
def DrainDelegate.encodeBuffer (o : DrainDelegate) (p : MvParams) : Bytes :=
  tagVersion .DrainDelegate p.OperationTagsVersion ::
    (o.ConsensusKey.encode ++ o.Delegate.encode ++ o.Destination.encode)

/-- `DrainDelegate.DecodeBuffer` from src/codec/drain_delegate.go. -/
def DrainDelegate.decodeBuffer (b : Bytes) (p : MvParams) :
    Except DecErr (DrainDelegate × Bytes) := do
  let b ← ensureTagAndSize .DrainDelegate p.OperationTagsVersion b
  let ck ← Address.decode21 (b.take 21)
  let b := b.drop 21
  let dg ← Address.decode21 (b.take 21)
  let b := b.drop 21
  let ds ← Address.decode21 (b.take 21)
  .ok (⟨ck, dg, ds⟩, b.drop 21)

/-- Modelled from the spec: the legacy Emmy `Endorsement` variant (missing
from src/), a 4-byte level after the tag. -/
structure Endorsement where
  payload : Bytes
deriving DecidableEq, Repr

/-- Modelled from the spec: legacy endorsement encoding. -/
def Endorsement.encodeBuffer (o : Endorsement) (p : MvParams) : Bytes :=
  tagVersion .Endorsement p.OperationTagsVersion :: o.payload

/-- Modelled from the spec: legacy endorsement decoding (fixed 4-byte
payload). -/
def Endorsement.decodeBuffer (b : Bytes) (p : MvParams) :
    Except DecErr (Endorsement × Bytes) := do
  let b ← ensureTagAndSize .Endorsement p.OperationTagsVersion b
  if b.length < 4 then .error .shortBuffer
  else .ok (⟨b.take 4⟩, b.drop 4)

/-- Modelled from the spec: the current-era attestation
(`TenderbakeEndorsement`, missing from src/), a fixed 42-byte consensus
payload (slot, level, round, block payload hash) after the tag. -/
structure TenderbakeEndorsement where
  payload : Bytes
deriving DecidableEq, Repr

/-- Modelled from the spec: current-era attestation encoding. -/
def TenderbakeEndorsement.encodeBuffer (o : TenderbakeEndorsement) (p : MvParams) : Bytes :=
  tagVersion .Endorsement p.OperationTagsVersion :: o.payload

/-- Modelled from the spec: current-era attestation decoding (fixed
42-byte payload). -/
def TenderbakeEndorsement.decodeBuffer (b : Bytes) (p : MvParams) :
    Except DecErr (TenderbakeEndorsement × Bytes) := do
  let b ← ensureTagAndSize .Endorsement p.OperationTagsVersion b
  if b.length < 42 then .error .shortBuffer
  else .ok (⟨b.take 42⟩, b.drop 42)

/-- Modelled from the spec: the current-era pre-attestation
(`TenderbakePreendorsement`, missing from src/). -/
structure TenderbakePreendorsement where
  payload : Bytes
deriving DecidableEq, Repr

/-- Modelled from the spec: pre-attestation encoding. -/
def TenderbakePreendorsement.encodeBuffer (o : TenderbakePreendorsement) (p : MvParams) : Bytes :=
  tagVersion .Preattestation p.OperationTagsVersion :: o.payload

/-- Modelled from the spec: pre-attestation decoding (fixed 42-byte
payload). -/
def TenderbakePreendorsement.decodeBuffer (b : Bytes) (p : MvParams) :
    Except DecErr (TenderbakePreendorsement × Bytes) := do
  let b ← ensureTagAndSize .Preattestation p.OperationTagsVersion b
  if b.length < 42 then .error .shortBuffer
  else .ok (⟨b.take 42⟩, b.drop 42)

/-- Modelled from the spec: the legacy `EndorsementWithSlot` wrapper
(missing from src/), a length-prefixed inlined endorsement; this kind is
never signed. -/
structure EndorsementWithSlot where
  inlined : Bytes
deriving DecidableEq, Repr

/-- Modelled from the spec: endorsement-with-slot encoding. -/
def EndorsementWithSlot.encodeBuffer (o : EndorsementWithSlot) (p : MvParams) : Bytes :=
  tagVersion .EndorsementWithSlot p.OperationTagsVersion ::
    (be32 o.inlined.length ++ o.inlined)

/-- Modelled from the spec: endorsement-with-slot decoding. -/
def EndorsementWithSlot.decodeBuffer (b : Bytes) (p : MvParams) :
    Except DecErr (EndorsementWithSlot × Bytes) := do
  let b ← ensureTagAndSize .EndorsementWithSlot p.OperationTagsVersion b
  match b with
  | b0 :: b1 :: b2 :: b3 :: rest =>
    let n := ((b0 * 256 + b1) * 256 + b2) * 256 + b3
    if rest.length < n then .error .shortBuffer
    else .ok (⟨rest.take n⟩, rest.drop n)
  | _ => .error .shortBuffer

/-- The `Operation` interface as a closed sum over the embedded variant
set (src dispatches on the same set via a type switch). -/
inductive Operation where
  | transaction (t : Transaction)
  | delegation (d : Delegation)
  | drainDelegate (d : DrainDelegate)
  | endorsement (e : Endorsement)
  | tenderbakeEndorsement (e : TenderbakeEndorsement)
  | tenderbakePreendorsement (e : TenderbakePreendorsement)
  | endorsementWithSlot (e : EndorsementWithSlot)
deriving DecidableEq, Repr

/-- `Kind()` of each variant, as declared in src. -/
def Operation.kind : Operation → OpType
  | .transaction _ => .Transaction
  | .delegation _ => .Delegation
  | .drainDelegate _ => .DrainDelegate
  | .endorsement _ => .Endorsement
  | .tenderbakeEndorsement _ => .Endorsement
  | .tenderbakePreendorsement _ => .Preattestation
  | .endorsementWithSlot _ => .EndorsementWithSlot

/-- `Limits()` of each variant: manager variants report their fee/gas/
storage fields, `Simple` variants report the zero value
(src/codec/manager.go). -/
def Operation.limits : Operation → Limits
  | .transaction t => t.manager.limits
  | .delegation d => d.manager.limits
  | _ => Limits.zero

/-- `GetCounter()`: manager variants report their counter, `Simple`
variants the sentinel -1 (src/codec/manager.go). -/
def Operation.getCounter : Operation → Int
  | .transaction t => (t.manager.Counter : Int)
  | .delegation d => (d.manager.Counter : Int)
  | _ => -1

/-- `WithSource`: a no-op on `Simple` variants (src/codec/manager.go). -/
def Operation.withSource (a : Address) : Operation → Operation
  | .transaction t => .transaction { t with manager := t.manager.withSource a }
  | .delegation d => .delegation { d with manager := d.manager.withSource a }
  | v => v

/-- `WithCounter`: a no-op on `Simple` variants (src/codec/manager.go). -/
def Operation.withCounter (c : Int) : Operation → Operation
  | .transaction t => .transaction { t with manager := t.manager.withCounter c }
  | .delegation d => .delegation { d with manager := d.manager.withCounter c }
  | v => v

/-- `WithLimits`: a no-op on `Simple` variants (src/codec/manager.go). -/
def Operation.withLimits (l : Limits) : Operation → Operation
  | .transaction t => .transaction { t with manager := t.manager.withLimits l }
  | .delegation d => .delegation { d with manager := d.manager.withLimits l }
  | v => v

/-- `EncodeBuffer` dispatch over the variant set. -/
def Operation.encodeBuffer (v : Operation) (p : MvParams) : Bytes :=
  match v with
  | .transaction t => t.encodeBuffer p
  | .delegation d => d.encodeBuffer p
  | .drainDelegate d => d.encodeBuffer p
  | .endorsement e => e.encodeBuffer p
  | .tenderbakeEndorsement e => e.encodeBuffer p
  | .tenderbakePreendorsement e => e.encodeBuffer p
  | .endorsementWithSlot e => e.encodeBuffer p

/-- JSON string quoting (`strconv.Quote`, an external collaborator)
modelled from the spec as plain double quotes around the rendered
bytes. -/
def quoteBytes (b : Bytes) : Bytes := 34 :: b ++ [34]

/-- Decimal rendering of a wire natural (`N.String`), as byte values. -/
def natRender (n : Nat) : Bytes := (Nat.toDigits 10 n).map Char.toNat

/-- Modelled from the spec: `OpType.String` (missing from src/), the
protocol kind name; opaque distinct byte lists suffice here. -/
def kindName : OpType → Bytes
  | .Endorsement => [101]
  | .Preattestation => [112]
  | .EndorsementWithSlot => [119]
  | .Transaction => [116]
  | .Delegation => [100]
  | .DrainDelegate => [114]

/-- Bytes of the JSON fragment `"kind":` as written by the variant
serializers. -/
def jsonKindKey : Bytes := [34, 107, 105, 110, 100, 34, 58]

/-- Bytes of `"source":`. -/
def jsonSourceKey : Bytes := [34, 115, 111, 117, 114, 99, 101, 34, 58]

/-- Bytes of `,"fee":`. -/
def jsonFeeKey : Bytes := [44, 34, 102, 101, 101, 34, 58]

/-- Bytes of `,"counter":`. -/
def jsonCounterKey : Bytes := [44, 34, 99, 111, 117, 110, 116, 101, 114, 34, 58]

/-- Bytes of `,"gas_limit":`. -/
def jsonGasKey : Bytes := [44, 34, 103, 97, 115, 95, 108, 105, 109, 105, 116, 34, 58]

/-- Bytes of `,"storage_limit":`. -/
def jsonStorageKey : Bytes :=
  [44, 34, 115, 116, 111, 114, 97, 103, 101, 95, 108, 105, 109, 105, 116, 34, 58]

/-- Bytes of `,"amount":`. -/
def jsonAmountKey : Bytes := [44, 34, 97, 109, 111, 117, 110, 116, 34, 58]

/-- Bytes of `,"destination":`. -/
def jsonDestinationKey : Bytes :=
  [44, 34, 100, 101, 115, 116, 105, 110, 97, 116, 105, 111, 110, 34, 58]

/-- Bytes of `,"delegate":`. -/
def jsonDelegateKey : Bytes :=
  [44, 34, 100, 101, 108, 101, 103, 97, 116, 101, 34, 58]

/-- Bytes of `,"consensus_key":`. -/
def jsonConsensusKeyKey : Bytes :=
  [44, 34, 99, 111, 110, 115, 101, 110, 115, 117, 115, 95, 107, 101, 121, 34, 58]

/-- Bytes of `,"parameters":`. -/
def jsonParametersKey : Bytes :=
  [44, 34, 112, 97, 114, 97, 109, 101, 116, 101, 114, 115, 34, 58]

/-- Bytes of `,"signature":`. -/
def jsonSignatureKey : Bytes :=
  [44, 34, 115, 105, 103, 110, 97, 116, 117, 114, 101, 34, 58]

/-- Bytes of `"branch":`. -/
def jsonBranchKey : Bytes := [34, 98, 114, 97, 110, 99, 104, 34, 58]

/-- Bytes of `,"contents":[`. -/
def jsonContentsKey : Bytes :=
  [44, 34, 99, 111, 110, 116, 101, 110, 116, 115, 34, 58, 91]

/-- Modelled from the spec: text rendering of an address (external
collaborator), kept opaque as its raw bytes. -/
def Address.render (a : Address) : Bytes := a.typ :: a.hash

/-- `Manager.EncodeJSON` from src/codec/manager.go. -/
def Manager.encodeJSON (m : Manager) : Bytes :=
  jsonSourceKey ++ quoteBytes m.Source.render ++
    jsonFeeKey ++ quoteBytes (natRender m.Fee) ++
    jsonCounterKey ++ quoteBytes (natRender m.Counter) ++
    jsonGasKey ++ quoteBytes (natRender m.GasLimit) ++
    jsonStorageKey ++ quoteBytes (natRender m.StorageLimit)

/-- Modelled from the spec: JSON form of the opaque contract-call value. -/
def MichelineParameters.renderJSON (p : MichelineParameters) : Bytes := p.blob

/-- `MarshalJSON` dispatch: the manager-variant bodies follow src
(src/unnamed/part_003, src/codec/drain_delegate.go); the consensus
variants, missing from src/, are modelled from the spec as a kind-only
object. -/
def Operation.marshalJSON (v : Operation) : Bytes :=
  match v with
  | .transaction t =>
    123 :: jsonKindKey ++ quoteBytes (kindName .Transaction) ++ [44] ++
      t.manager.encodeJSON ++ jsonAmountKey ++ quoteBytes (natRender t.Amount) ++
      jsonDestinationKey ++ quoteBytes t.Destination.render ++
      (match t.Parameters with
       | some prm => jsonParametersKey ++ prm.renderJSON
       | none => []) ++ [125]
  | .delegation d =>
    123 :: jsonKindKey ++ quoteBytes (kindName .Delegation) ++ [44] ++
      d.manager.encodeJSON ++
      (if d.Delegate.isValid then jsonDelegateKey ++ quoteBytes d.Delegate.render
       else []) ++ [125]
  | .drainDelegate d =>
    123 :: jsonKindKey ++ quoteBytes (kindName .DrainDelegate) ++
      jsonConsensusKeyKey ++ quoteBytes d.ConsensusKey.render ++
      jsonDelegateKey ++ quoteBytes d.Delegate.render ++
      jsonDestinationKey ++ quoteBytes d.Destination.render ++ [125]
  | v =>
    123 :: jsonKindKey ++ quoteBytes (kindName v.kind) ++ [125]

/-- The `Op` container from src/codec/drain_delegate.go (second file
section). A `nil` params pointer is `none` and falls back to the default
params at use sites, as in src. -/
structure Op where
  Branch : BlockHash
  Contents : List Operation
  Signature : Signature
  ChainId : Option Bytes
  TTL : Int
  Params : Option MvParams
  Source : Address
deriving DecidableEq, Repr

/-- Watermark constants from src/codec/drain_delegate.go. -/
def OperationWatermark : Nat := 3

/-- Legacy Emmy endorsement watermark (0x02). -/
def EmmyEndorsementWatermark : Nat := 2

/-- Current-era pre-attestation watermark (0x12). -/
def TenderbakePreendorsementWatermark : Nat := 18

/-- Current-era attestation watermark (0x13). -/
def TenderbakeEndorsementWatermark : Nat := 19

/-- `Op.Bytes` from src/codec/drain_delegate.go: branch, contents in list
order, then the raw signature bytes unless the first operation is an
endorsement-with-slot; the empty list stands for the Go `nil` sentinel
returned on an empty or branch-less op. -/
def Op.bytes (o : Op) : Bytes :=
  if o.Contents.isEmpty || !o.Branch.isValid then []
  else
    let p := o.Params.getD defaultParams
    let body := o.Branch.bytes ++ (o.Contents.map (Operation.encodeBuffer · p)).flatten
    match o.Contents with
    | [] => body
    | c :: _ =>
      match c.kind with
      | .EndorsementWithSlot => body
      | _ => if o.Signature.isValid then body ++ o.Signature.data else body

/-- `Op.WatermarkedBytes` from src/codec/drain_delegate.go: the signing
pre-image, a kind- and era-selected watermark byte, the chain id when set
and the first operation is of a consensus kind, then branch and
contents. -/
def Op.watermarkedBytes (o : Op) : Bytes :=
  if o.Contents.isEmpty || !o.Branch.isValid then []
  else
    let p := o.Params.getD defaultParams
    let head : Bytes :=
      match o.Contents with
      | [] => []
      | c :: _ =>
        match c.kind with
        | .Endorsement | .EndorsementWithSlot =>
          (if p.OperationTagsVersion < 2 then [EmmyEndorsementWatermark]
           else [TenderbakeEndorsementWatermark]) ++ o.ChainId.getD []
        | .Preattestation =>
          TenderbakePreendorsementWatermark :: o.ChainId.getD []
        | _ => [OperationWatermark]
    head ++ o.Branch.bytes ++ (o.Contents.map (Operation.encodeBuffer · p)).flatten

/-- `Op.Digest` from src/codec/drain_delegate.go, parametric in the
32-byte hash function (`mavryk.Digest`, an external collaborator). -/
def Op.digest (hash : Bytes → Bytes) (o : Op) : Bytes :=
  hash o.watermarkedBytes

/-- Precondition errors raised by `Op.Sign`. -/
inductive SignErr where
  | missingBranch
  | emptyContents
deriving DecidableEq, Repr

/-- `Op.Sign` from src/codec/drain_delegate.go, parametric in the hash and
in the signer capability (`key.Sign`, an external collaborator, modelled
from the spec as a total deterministic function of the digest): it
validates branch and contents, then unconditionally computes and stores a
fresh signature over the digest. -/
def Op.sign (hash : Bytes → Bytes) (keySign : Bytes → MvGo.Signature) (o : Op) :
    Except SignErr Op :=
  if !o.Branch.isValid then .error .missingBranch
  else if o.Contents.isEmpty then .error .emptyContents
  else .ok { o with Signature := keySign (Op.digest hash o) }

/-- `Op.Limits` from src/codec/drain_delegate.go: the running
`Limits.Add` over the contents list. -/
def Op.limits (o : Op) : Limits :=
  o.Contents.foldl (fun l v => l.add v.limits) Limits.zero

/-- `Op.MarshalJSON` from src/codec/drain_delegate.go: branch, the
contents array, then the signature unless it is invalid or the first
operation is an endorsement-with-slot. -/
def Op.marshalJSON (o : Op) : Bytes :=
  let sig :=
    match o.Contents with
    | c :: _ => if c.kind = OpType.EndorsementWithSlot then MvGo.Signature.invalid else o.Signature
    | [] => o.Signature
  123 :: jsonBranchKey ++ quoteBytes o.Branch.render ++ jsonContentsKey ++
    List.intercalate [44] (o.Contents.map Operation.marshalJSON) ++ [93] ++
    (if sig.isValid then jsonSignatureKey ++ quoteBytes sig.render else []) ++ [125]

/-- Modelled from the spec: the fee constants of `CalculateMinFee`
(missing from src/): a fixed minimum, a per-byte charge, and a
tenth-of-a-unit gas charge. -/
def minFeeFixed : Int := 100

/-- Per-byte component of the minimum fee. -/
def minFeeByte : Int := 1

/-- Gas component numerator of the minimum fee (denominator 1000). -/
def gasFeeNum : Int := 100

/-- Modelled from the spec: `CalculateMinFee` (missing from src/): the
minimum acceptable fee is a function of the operation's encoded byte
length (plus the 96 shared header bytes, branch and signature, charged to
the first operation of a batch) and of the gas limit. -/
def CalculateMinFee (v : Operation) (gas : Int) (isFirst : Bool) (p : MvParams) : Int :=
  let sz : Int := (v.encodeBuffer p).length + (if isFirst then 96 else 0)
  minFeeFixed + minFeeByte * sz + gas * gasFeeNum / 1000

/-- Result of a codec-core computation: a value, a structured error, a Go
runtime fault (`crash`), or - an artifact of embedding the unbounded Go
fee loop with fuel - `diverge`, meaning the fuel ran out while the Go
loop was still running. -/
inductive Outcome (α : Type) where
  | ok (a : α)
  | err (e : DecErr)
  | crash
  | diverge
deriving DecidableEq, Repr

/-- The fee/size fixed-point loop inside `Op.WithLimits`
(src/codec/drain_delegate.go lines 442-448): while the previous fee is
below the recomputed one, take the recomputed fee (never below the
user-requested fee) and re-apply the limits. The Go loop has no iteration
ceiling; `fuel` only makes the embedding total. -/
def feeIter (p : MvParams) (userFee gasAdj : Int) (isFirst : Bool) :
    Nat → Operation → Limits → Int → Option (Operation × Limits)
  | 0, _, _, _ => none
  | fuel + 1, v, adj, lastFee =>
    if lastFee < adj.Fee then
      let newFee := max64 userFee (CalculateMinFee v gasAdj isFirst p)
      let adj2 := { adj with Fee := newFee }
      feeIter p userFee gasAdj isFirst fuel (v.withLimits adj2) adj2 adj.Fee
    else some (v, adj)

/-- The indexed body of `Op.WithLimits` (src/codec/drain_delegate.go lines
421-451). The guard `len(limits) < i` skips an operation only when the
index is strictly beyond the slice length, so at `i = len(limits)` the Go
code indexes `limits[i]` out of range: a runtime fault, embedded as
`crash`. -/
def withLimitsGo (p : MvParams) (limits : List Limits) (margin : Int) (fuel : Nat) :
    Nat → List Operation → Outcome (List Operation)
  | _, [] => .ok []
  | i, v :: rest =>
    if limits.length < i then
      match withLimitsGo p limits margin fuel (i + 1) rest with
      | .ok tail => .ok (v :: tail)
      | .err e => .err e
      | .crash => .crash
      | .diverge => .diverge
    else
      match limits[i]? with
      | none => .crash
      | some li =>
        let v1 := v.withLimits li
        let gas := wrap64 (li.GasLimit + margin)
        let storage :=
          if li.StorageLimit > 0 then wrap64 (li.StorageLimit + margin)
          else li.StorageLimit
        match feeIter p li.Fee gas (i == 0) fuel v1 ⟨0, gas, storage⟩ (-1) with
        | none => .diverge
        | some (v2, _) =>
          match withLimitsGo p limits margin fuel (i + 1) rest with
          | .ok tail => .ok (v2 :: tail)
          | .err e => .err e
          | .crash => .crash
          | .diverge => .diverge

/-- `Op.WithLimits` from src/codec/drain_delegate.go. -/
def Op.withLimits (o : Op) (limits : List Limits) (margin : Int) (fuel : Nat) :
    Outcome Op :=
  let p := o.Params.getD defaultParams
  match withLimitsGo p limits margin fuel 0 o.Contents with
  | .ok cs => .ok { o with Contents := cs }
  | .err e => .err e
  | .crash => .crash
  | .diverge => .diverge

/-- The per-kind instantiate-and-decode step of the `DecodeOp` content
loop (src/codec/drain_delegate.go lines 639-724), restricted to the
embedded variant set; the endorsement kind is era-split on the
operation-tags version, as in src. -/
def decodeDispatch (k : OpType) (p : MvParams) (b : Bytes) :
    Except DecErr (Operation × Bytes) :=
  match k with
  | .Endorsement =>
    if p.OperationTagsVersion < 2 then
      (Endorsement.decodeBuffer b p).map (fun r => (.endorsement r.1, r.2))
    else
      (TenderbakeEndorsement.decodeBuffer b p).map
        (fun r => (.tenderbakeEndorsement r.1, r.2))
  | .Preattestation =>
    (TenderbakePreendorsement.decodeBuffer b p).map
      (fun r => (.tenderbakePreendorsement r.1, r.2))
  | .EndorsementWithSlot =>
    (EndorsementWithSlot.decodeBuffer b p).map
      (fun r => (.endorsementWithSlot r.1, r.2))
  | .Transaction =>
    (Transaction.decodeBuffer b p).map (fun r => (.transaction r.1, r.2))
  | .Delegation =>
    (Delegation.decodeBuffer b p).map (fun r => (.delegation r.1, r.2))
  | .DrainDelegate =>
    (DrainDelegate.decodeBuffer b p).map (fun r => (.drainDelegate r.1, r.2))

/-- The `DecodeOp` content loop (src/codec/drain_delegate.go lines
635-725). On an unrecognized tag with exactly 64 bytes left, the Go
`break` statement exits only the `switch`, after which the nil `op`
interface is dereferenced by `op.DecodeBuffer`: a runtime fault, embedded
as `crash`. -/
def decodeLoop (p : MvParams) : Nat → Bytes → List Operation →
    Outcome (List Operation × Bytes)
  | _, [], acc => .ok (acc.reverse, [])
  | 0, _ :: _, _ => .diverge
  | fuel + 1, tag :: rest, acc =>
    match parseOpTag tag with
    | some k =>
      match decodeDispatch k p (tag :: rest) with
      | .error e => .err e
      | .ok (op, r) => decodeLoop p fuel r (op :: acc)
    | none =>
      if (tag :: rest).length = 64 then .crash
      else .err (.unsupportedTag tag)

/-- `DecodeOp` from src/codec/drain_delegate.go: rejects buffers shorter
than 37 bytes, reads the 32-byte branch, runs the content loop, then
parses any remaining tail as the signature. -/
def decodeOp (data : Bytes) : Outcome Op :=
  if data.length < 32 + 5 then .err .shortBuffer
  else
    let branch : BlockHash := ⟨data.take 32⟩
    let rest := data.drop 32
    match decodeLoop defaultParams (rest.length + 1) rest [] with
    | .err e => .err e
    | .crash => .crash
    | .diverge => .diverge
    | .ok (contents, tail) =>
      if tail.length > 0 then
        match Signature.unmarshal (tail.take 64) with
        | .error e => .err e
        | .ok sig =>
          .ok ⟨branch, contents, sig, none, 0, some defaultParams, Address.zero⟩
      else
        .ok ⟨branch, contents, Signature.invalid, none, 0, some defaultParams,
          Address.zero⟩

/-! Round-trip lemmas for the wire pieces, leading to claim C1. -/

theorem ensureTagAndSize_cons (k : OpType) (ver : Nat) (rest : Bytes) :
    ensureTagAndSize k ver (tagVersion k ver :: rest) = .ok rest := by
  simp [ensureTagAndSize]

theorem nDecodeE_nEncode (n : Nat) (rest : Bytes) :
    nDecodeE (nEncode n ++ rest) = .ok (n, rest) := by
  simp [nDecodeE, nDecode_nEncode]

theorem address_encode_length (a : Address) (h : a.isValid = true) :
    a.encode.length = 21 := by
  simp only [Address.isValid, Bool.and_eq_true, beq_iff_eq, decide_eq_true_eq] at h
  simp [Address.encode, h.2]

theorem manager_decode_encode (m : Manager) (h : m.Wf) (rest : Bytes) :
    Manager.decodeBuffer (m.encodeBuffer ++ rest) = .ok (m, rest) := by
  obtain ⟨hv, h3⟩ := h
  have hlen : m.Source.encode.length = 21 := address_encode_length m.Source hv
  simp only [Manager.encodeBuffer, Manager.decodeBuffer, List.append_assoc,
    List.take_left' hlen, List.drop_left' hlen,
    Address.decode21_encode m.Source hv h3, nDecodeE_nEncode, bind, Except.bind]

theorem address_encodePadded_length (a : Address) (h : a.isValid = true) :
    a.encodePadded.length = 22 := by
  simp only [Address.isValid, Bool.and_eq_true, beq_iff_eq, decide_eq_true_eq] at h
  unfold Address.encodePadded
  by_cases h3 : a.typ < 3 <;> simp [h3, h.2]

theorem transaction_roundtrip (p : MvParams) (t : Transaction) (h : t.Wf) (rest : Bytes) :
    Transaction.decodeBuffer (t.encodeBuffer p ++ rest) p = .ok (t, rest) := by
  obtain ⟨m, amt, dst, prm⟩ := t
  obtain ⟨hm, hd, hp⟩ := h
  have hlen : dst.encodePadded.length = 22 := address_encodePadded_length dst hd
  cases prm with
  | none =>
    simp only [Transaction.encodeBuffer, Transaction.decodeBuffer, List.cons_append,
      ensureTagAndSize_cons, List.append_assoc, bind, Except.bind,
      manager_decode_encode m hm, nDecodeE_nEncode,
      List.take_left' hlen, List.drop_left' hlen]
    simp [Address.decode22_encodePadded dst hd, readBool, Except.bind]
  | some prmv =>
    have hw : prmv.Wf := hp
    simp only [Transaction.encodeBuffer, Transaction.decodeBuffer, List.cons_append,
      ensureTagAndSize_cons, List.append_assoc, bind, Except.bind,
      manager_decode_encode m hm, nDecodeE_nEncode,
      List.take_left' hlen, List.drop_left' hlen]
    simp [Address.decode22_encodePadded dst hd, readBool, Except.bind,
      michelineParameters_roundtrip prmv hw]

theorem delegation_roundtrip (p : MvParams) (d : Delegation) (h : d.Wf) (rest : Bytes) :
    Delegation.decodeBuffer (d.encodeBuffer p ++ rest) p = .ok (d, rest) := by
  obtain ⟨m, dg⟩ := d
  obtain ⟨hm, hd⟩ := h
  cases hd with
  | inl hz =>
    simp only at hz
    subst hz
    simp only [Delegation.encodeBuffer, Delegation.decodeBuffer, List.cons_append,
      ensureTagAndSize_cons, List.append_assoc, bind, Except.bind,
      manager_decode_encode m hm]
    simp [Address.isValid, Address.zero, readBool, Except.bind]
  | inr hv =>
    have hlen : dg.encode.length = 21 := address_encode_length dg hv.1
    simp only [Delegation.encodeBuffer, Delegation.decodeBuffer, List.cons_append,
      ensureTagAndSize_cons, List.append_assoc, bind, Except.bind,
      manager_decode_encode m hm, hv.1, if_true]
    simp [readBool, Except.bind, List.take_left' hlen, List.drop_left' hlen,
      Address.decode21_encode dg hv.1 hv.2]

instance (o : Transaction) : Decidable o.Wf := by
  unfold Transaction.Wf; infer_instance

instance (d : Delegation) : Decidable d.Wf := by
  unfold Delegation.Wf; infer_instance

/-- C1: for every well-formed operation variant value (a `Transaction` or
a `Delegation`, with any combination of present/absent optional fields and
any magnitudes of the variable-length natural-number fields), decoding
the bytes produced by encoding it yields a value equal to the original,
and the decoder consumes exactly the bytes the encoder produced: any
trailing bytes are returned unread. -/
theorem c1_variant_roundtrip (p : MvParams) (rest : Bytes) :
    (∀ t : Transaction, t.Wf →
      Transaction.decodeBuffer (t.encodeBuffer p ++ rest) p = .ok (t, rest)) ∧
    (∀ d : Delegation, d.Wf →
      Delegation.decodeBuffer (d.encodeBuffer p ++ rest) p = .ok (d, rest)) :=
  ⟨fun t h => transaction_roundtrip p t h rest,
   fun d h => delegation_roundtrip p d h rest⟩

/-- Witness data: a valid implicit source address. -/
def wAddr : Address := ⟨0, List.replicate 20 7⟩

/-- Witness data: a valid originated destination address. -/
def wAddrK : Address := ⟨3, List.replicate 20 9⟩

/-- Witness data: a populated manager bundle. -/
def wManager : Manager := ⟨wAddr, 200, 1, 1000, 0⟩

/-- Witness data: a transaction with attached call parameters. -/
def wTransaction : Transaction := ⟨wManager, 5, wAddrK, some ⟨[1, 2, 3]⟩⟩

/-- Witness data: a delegation with a set delegate. -/
def wDelegation : Delegation := ⟨wManager, wAddr⟩

theorem c1_variant_roundtrip_witness :
    Transaction.decodeBuffer (wTransaction.encodeBuffer ⟨3⟩ ++ [9, 9]) ⟨3⟩ =
      .ok (wTransaction, [9, 9]) ∧
    Delegation.decodeBuffer (wDelegation.encodeBuffer ⟨3⟩ ++ [9, 9]) ⟨3⟩ =
      .ok (wDelegation, [9, 9]) :=
  ⟨(c1_variant_roundtrip ⟨3⟩ [9, 9]).1 wTransaction (by decide),
   (c1_variant_roundtrip ⟨3⟩ [9, 9]).2 wDelegation (by decide)⟩

/-! Claim C6: short-buffer rejection of the batch dispatcher. -/

/-- C6: for every input buffer shorter than 37 bytes, `DecodeOp` returns
the short-buffer error and no `Op` value: it neither faults nor returns a
silently empty operation. -/
theorem c6_short_buffer_rejection (data : Bytes) (h : data.length < 37) :
    decodeOp data = .err .shortBuffer := by
  unfold decodeOp
  rw [if_pos (by omega)]

theorem c6_short_buffer_rejection_witness :
    decodeOp (List.replicate 36 1) = .err .shortBuffer :=
  c6_short_buffer_rejection (List.replicate 36 1) (by decide)

/-! Claim C7: the unknown-tag/64-byte-tail path of the content loop. -/

/-- C7 (against the claim): in the content loop of `DecodeOp`, an unknown
tag byte with more than 64 bytes remaining is the fatal unsupported-tag
error, as claimed; but with exactly 64 bytes remaining the Go `break`
statement exits only the enclosing `switch`, after which
`op.DecodeBuffer` dereferences the nil `op` interface: a runtime fault,
not a stop-and-parse-signature path. -/
theorem c7_unknown_tag_tail :
    decodeOp (List.replicate 32 1 ++ 255 :: List.replicate 63 0) = .crash ∧
    decodeOp (List.replicate 32 1 ++ 255 :: List.replicate 70 0) =
      .err (.unsupportedTag 255) := by
  exact ⟨rfl, rfl⟩

/-! Claim C10: `Op.WithLimits` with a limits slice shorter than the
contents list. -/

/-- Witness data: an op holding one transaction, valid branch, no
signature. -/
def wOp : Op :=
  ⟨⟨List.replicate 32 1⟩, [.transaction wTransaction], Signature.invalid,
    none, 0, none, Address.zero⟩

/-- Witness data: an op holding two transactions. -/
def wOp2 : Op :=
  ⟨⟨List.replicate 32 1⟩, [.transaction wTransaction, .transaction wTransaction],
    Signature.invalid, none, 0, none, Address.zero⟩

set_option maxRecDepth 4000 in
/-- C10 (against the claim): the skip guard of `Op.WithLimits` is
`len(limits) < i`, which admits the index `i = len(limits)`, so a
contents list longer than the limits slice makes the Go code read
`limits[i]` out of range: a runtime fault, not a skip. An empty limits
slice on a one-operation op faults at index 0; a one-entry slice on a
two-operation op faults at index 1. -/
theorem c10_withLimits_short_slice :
    Op.withLimits wOp [] 0 100 = .crash ∧
    Op.withLimits wOp2 [⟨0, 1000, 0⟩] 100 100 = .crash := by
  exact ⟨by decide, by decide⟩

/-! Claim C2: the fee/size fixed-point loop inside `Op.WithLimits`. -/

/-- Witness data: the converged form of `wOp` after
`WithLimits([{0,1000,0}], 100)`: gas 1000+100, and the fee fixed point
365 = 100 (fixed) + 155 (encoded size incl. 96 header bytes) + 110 (gas
charge). -/
def wOpConverged : Op :=
  { wOp with
    Contents := [.transaction { wTransaction with
      manager := { wManager with Fee := 365, GasLimit := 1100, StorageLimit := 0 } }] }

set_option maxRecDepth 4000 in
/-- C2 (observed behavior): the fee loop of `Op.WithLimits` evaluated at
a representative input reaches its fixed point (here within 4 iterations)
and returns the updated op; the function has no error result at all -
its Go signature returns only `*Op` - and src contains no iteration
ceiling (the `fuel` argument is an artifact of embedding the unbounded Go
`for lastFee < adj.Fee` loop, not a bound present in the code). -/
theorem c2_withLimits_eval :
    Op.withLimits wOp [⟨0, 1000, 0⟩] 100 100 = .ok wOpConverged ∧
    Op.withLimits wOp [⟨0, 1000, 0⟩] 100 4 = .ok wOpConverged := by
  exact ⟨by decide, by decide⟩

/-! Claim C3: `Op.Sign` on an already-signed op. -/

/-- Witness data: `wOp` carrying a valid (64-byte) stored signature. -/
def wOpSigned : Op := { wOp with Signature := ⟨List.replicate 64 1⟩ }

/-- Witness data: a modelled signer capability producing a fixed fresh
signature, distinct from the stored one. -/
def wKeySign : Bytes → Signature := fun _ => ⟨List.replicate 64 2⟩

/-- C3 (against the claim): `Op.Sign` on an op with a valid branch,
non-empty contents and a valid stored signature is not a no-op: the code
never consults the stored signature and overwrites it with the freshly
computed one, contradicting its own doc comment. -/
theorem c3_sign_overwrites :
    wOpSigned.Signature.isValid = true ∧
    Op.sign id wKeySign wOpSigned =
      .ok { wOpSigned with Signature := ⟨List.replicate 64 2⟩ } ∧
    wKeySign (Op.digest id wOpSigned) ≠ wOpSigned.Signature := by
  exact ⟨rfl, rfl, by decide⟩

/-! Claim C8: the digest ignores the stored signature. -/

/-- C8: `Digest` is the hash of `WatermarkedBytes`, which never reads the
signature field: two ops identical except for their stored signature
(both with a valid branch and non-empty contents) have equal digests, for
every digest function; in particular mutating an already-set signature
never changes the digest. -/
theorem c8_digest_excludes_signature (hash : Bytes → Bytes) (o : Op)
    (s1 s2 : MvGo.Signature) (hb : o.Branch.isValid = true)
    (hne : o.Contents ≠ []) :
    Op.digest hash { o with Signature := s1 } =
      Op.digest hash { o with Signature := s2 } := rfl

theorem c8_digest_excludes_signature_witness :
    Op.digest id { wOpSigned with Signature := ⟨List.replicate 64 3⟩ } =
      Op.digest id { wOpSigned with Signature := Signature.invalid } :=
  c8_digest_excludes_signature id wOpSigned ⟨List.replicate 64 3⟩
    Signature.invalid (by decide) (by decide)

/-! Claim C4: watermark selection. -/

/-- C4: an op whose first content operation is a current-era
(tags version 2 or later) attestation/endorsement kind and whose chain id
is set is watermarked `0x13`, immediately followed by the chain id, then
the branch, then the contents; an op whose first content operation is not
of an attestation or pre-attestation kind is watermarked with the generic
`0x03` and carries no chain id, the branch following the watermark byte
directly. -/
theorem c4_watermark_selection :
    (∀ (o : Op) (p : MvParams) (c : Bytes) (v : Operation)
      (rest : List Operation),
      o.Params = some p → 2 ≤ p.OperationTagsVersion →
      o.Branch.isValid = true → o.ChainId = some c →
      o.Contents = v :: rest →
      (v.kind = .Endorsement ∨ v.kind = .EndorsementWithSlot) →
      o.watermarkedBytes =
        TenderbakeEndorsementWatermark ::
          (c ++ o.Branch.bytes ++
            (o.Contents.map (Operation.encodeBuffer · p)).flatten)) ∧
    (∀ (o : Op) (v : Operation) (rest : List Operation),
      o.Branch.isValid = true → o.Contents = v :: rest →
      v.kind ≠ .Endorsement → v.kind ≠ .EndorsementWithSlot →
      v.kind ≠ .Preattestation →
      o.watermarkedBytes =
        OperationWatermark ::
          (o.Branch.bytes ++
            (o.Contents.map
              (Operation.encodeBuffer · (o.Params.getD defaultParams))).flatten)) := by
  constructor
  · intro o p c v rest hp hv hb hc hco hk
    have hv2 : ¬ p.OperationTagsVersion < 2 := by omega
    rcases hk with hk | hk <;>
      simp [Op.watermarkedBytes, hco, hb, hp, hc, hk, hv2,
        TenderbakeEndorsementWatermark, List.append_assoc]
  · intro o v rest hb hco h1 h2 h3
    cases hk : v.kind <;>
      simp only [hk, ne_eq, not_true_eq_false] at h1 h2 h3 <;>
      simp [Op.watermarkedBytes, hco, hb, hk, OperationWatermark,
        List.append_assoc]

/-- Witness data: an op whose first content is a current-era attestation,
with chain id and current-era params set. -/
def wOpAtt : Op :=
  ⟨⟨List.replicate 32 1⟩, [.tenderbakeEndorsement ⟨List.replicate 42 5⟩],
    Signature.invalid, some [1, 2, 3, 4], 0, some ⟨3⟩, Address.zero⟩

theorem c4_watermark_selection_witness :
    wOpAtt.watermarkedBytes =
      TenderbakeEndorsementWatermark ::
        ([1, 2, 3, 4] ++ wOpAtt.Branch.bytes ++
          (wOpAtt.Contents.map (Operation.encodeBuffer · ⟨3⟩)).flatten) ∧
    wOp.watermarkedBytes =
      OperationWatermark ::
        (wOp.Branch.bytes ++
          (wOp.Contents.map
            (Operation.encodeBuffer · (wOp.Params.getD defaultParams))).flatten) :=
  ⟨c4_watermark_selection.1 wOpAtt ⟨3⟩ [1, 2, 3, 4] _ [] rfl (by norm_num)
      (by decide) rfl rfl (Or.inl rfl),
   c4_watermark_selection.2 wOp _ [] (by decide) rfl (by decide) (by decide)
      (by decide)⟩

/-! Claim C5: endorsement-with-slot is never signed. -/

/-- C5: for an op whose only content operation is of the
endorsement-with-slot kind, `Bytes` appends no signature bytes and
`MarshalJSON` emits no signature field, even when the stored signature is
valid. -/
theorem c5_endorsement_with_slot_omits_signature (o : Op)
    (e : EndorsementWithSlot) (hco : o.Contents = [.endorsementWithSlot e])
    (hb : o.Branch.isValid = true) :
    o.bytes = o.Branch.bytes ++
      (o.Contents.map
        (Operation.encodeBuffer · (o.Params.getD defaultParams))).flatten ∧
    o.marshalJSON =
      123 :: jsonBranchKey ++ quoteBytes o.Branch.render ++ jsonContentsKey ++
        List.intercalate [44] (o.Contents.map Operation.marshalJSON) ++
        [93] ++ [125] := by
  constructor
  · simp [Op.bytes, hco, hb, Operation.kind]
  · simp [Op.marshalJSON, hco, Operation.kind, Signature.isValid,
      Signature.invalid]

/-- Witness data: an op whose only content is an endorsement-with-slot
and whose stored signature is valid. -/
def wOpEws : Op :=
  ⟨⟨List.replicate 32 1⟩, [.endorsementWithSlot ⟨[1, 2]⟩],
    ⟨List.replicate 64 1⟩, none, 0, none, Address.zero⟩

theorem c5_endorsement_with_slot_omits_signature_witness :
    wOpEws.bytes = wOpEws.Branch.bytes ++
      (wOpEws.Contents.map
        (Operation.encodeBuffer · (wOpEws.Params.getD defaultParams))).flatten ∧
    wOpEws.marshalJSON =
      123 :: jsonBranchKey ++ quoteBytes wOpEws.Branch.render ++
        jsonContentsKey ++
        List.intercalate [44] (wOpEws.Contents.map Operation.marshalJSON) ++
        [93] ++ [125] :=
  c5_endorsement_with_slot_omits_signature wOpEws ⟨[1, 2]⟩ rfl (by decide)

/-! Claim C9: the Limits monoid and `Op.Limits` as a component-wise sum. -/

theorem wrap64_add_left (a b : Int) : wrap64 (wrap64 a + b) = wrap64 (a + b) := by
  unfold wrap64
  have h1 : (a + 2 ^ 63) % 2 ^ 64 - 2 ^ 63 + b + 2 ^ 63 =
      (a + 2 ^ 63) % 2 ^ 64 + b := by ring
  rw [h1, Int.emod_add_emod]
  have h2 : a + 2 ^ 63 + b = a + b + 2 ^ 63 := by ring
  rw [h2]

theorem wrap64_add_right (a b : Int) : wrap64 (a + wrap64 b) = wrap64 (a + b) := by
  rw [Int.add_comm a (wrap64 b), wrap64_add_left, Int.add_comm]

theorem wrap64_eq_self (z : Int) (h : Int64Wf z) : wrap64 z = z := by
  obtain ⟨h1, h2⟩ := h
  unfold wrap64
  rw [Int.emod_eq_of_lt (by omega) (by omega)]
  omega

theorem wrap64_wf (z : Int) : Int64Wf (wrap64 z) := by
  unfold wrap64 Int64Wf
  have h1 : 0 ≤ (z + 2 ^ 63) % 2 ^ 64 := Int.emod_nonneg _ (by norm_num)
  have h2 : (z + 2 ^ 63) % 2 ^ 64 < 2 ^ 64 := Int.emod_lt_of_pos _ (by norm_num)
  omega

theorem foldl_add_field (f : Limits → Int)
    (hf : ∀ x y : Limits, f (x.add y) = wrap64 (f x + f y))
    (l : List Operation) : ∀ acc : Limits, Int64Wf (f acc) →
    f (l.foldl (fun x v => x.add v.limits) acc) =
      wrap64 (f acc + (l.map (fun v => f v.limits)).sum) := by
  induction l with
  | nil =>
    intro acc h
    simp [wrap64_eq_self (f acc) h]
  | cons v tl ih =>
    intro acc h
    simp only [List.foldl_cons, List.map_cons, List.sum_cons]
    rw [ih (acc.add v.limits) (by rw [hf]; exact wrap64_wf _), hf,
      wrap64_add_left, Int.add_assoc]

/-- C9: `Limits.Add` is commutative and associative with the all-zero
`Limits` as identity on every `int64`-representable value (in particular
on `Limits{Fee:1}`), so `Limits` under `Add` is a commutative monoid; and
`Op.Limits` is the `Add`-fold of the contents' limits - equivalently,
each of its components is the (64-bit) sum of the corresponding
components of the contents' limits, the all-zero value for an empty
contents list. -/
theorem c9_limits_monoid :
    (∀ a b : Limits, a.add b = b.add a) ∧
    (∀ a b c : Limits, (a.add b).add c = a.add (b.add c)) ∧
    (∀ a : Limits, a.Wf → Limits.zero.add a = a ∧ a.add Limits.zero = a) ∧
    Limits.zero.add ⟨1, 0, 0⟩ = (⟨1, 0, 0⟩ : Limits) ∧
    (∀ o : Op,
      o.limits = (o.Contents.map Operation.limits).foldl Limits.add Limits.zero) ∧
    (∀ o : Op, o.Contents = [] → o.limits = Limits.zero) ∧
    (∀ o : Op,
      o.limits.Fee = wrap64 ((o.Contents.map (fun v => v.limits.Fee)).sum) ∧
      o.limits.GasLimit =
        wrap64 ((o.Contents.map (fun v => v.limits.GasLimit)).sum) ∧
      o.limits.StorageLimit =
        wrap64 ((o.Contents.map (fun v => v.limits.StorageLimit)).sum)) := by
  refine ⟨?_, ?_, ?_, ?_, ?_, ?_, ?_⟩
  · intro a b
    simp [Limits.add, Int.add_comm]
  · intro a b c
    simp [Limits.add, wrap64_add_left, wrap64_add_right, Int.add_assoc]
  · intro a ha
    obtain ⟨h1, h2, h3⟩ := ha
    constructor <;>
      simp [Limits.add, Limits.zero, wrap64_eq_self _ h1, wrap64_eq_self _ h2,
        wrap64_eq_self _ h3]
  · decide
  · intro o
    simp [Op.limits, List.foldl_map]
  · intro o h
    simp [Op.limits, h]
  · intro o
    refine ⟨?_, ?_, ?_⟩
    · have := foldl_add_field (fun l => l.Fee) (fun x y => rfl) o.Contents
        Limits.zero ⟨by norm_num [Limits.zero], by norm_num [Limits.zero]⟩
      simpa [Op.limits, Limits.zero] using this
    · have := foldl_add_field (fun l => l.GasLimit) (fun x y => rfl) o.Contents
        Limits.zero ⟨by norm_num [Limits.zero], by norm_num [Limits.zero]⟩
      simpa [Op.limits, Limits.zero] using this
    · have := foldl_add_field (fun l => l.StorageLimit) (fun x y => rfl)
        o.Contents Limits.zero ⟨by norm_num [Limits.zero], by norm_num [Limits.zero]⟩
      simpa [Op.limits, Limits.zero] using this

theorem c9_limits_monoid_witness :
    Limits.zero.add ⟨1, 2, 3⟩ = (⟨1, 2, 3⟩ : Limits) ∧
    Limits.add ⟨1, 2, 3⟩ Limits.zero = (⟨1, 2, 3⟩ : Limits) :=
  c9_limits_monoid.2.2.1 ⟨1, 2, 3⟩ (by decide)

end MvGo
